import Mathlib

/-!
# Changelogger: verification of the changelog-construction pipeline

This file gives a shallow embedding of the changelog generation pipeline of
the `changelogger` bot (the REST-API tool variant in
`src/changelogger/src/conversations/chat.ts`, with the alternate renderer in
`src/changelogger/src/tools/generateChangelog.ts` noted where it differs),
and proves or refutes the specified properties of that pipeline.

Strings are modelled as Lean `String`s (lists of Unicode scalar values);
JavaScript regular-expression operations used by the source are translated
into explicit recursive functions on `List Char`, following exact JS regex
semantics (leftmost match, greedy quantifiers, alternative order,
backtracking) for the concrete patterns appearing in the source.
`String.prototype.toUpperCase` / `toLowerCase` are modelled on the ASCII
range (`Char.toUpper` / `Char.toLower`), which is exact for every character
class the source's patterns inspect.
-/

namespace Changelogger

/-! ## JavaScript string primitives -/

/-- The JS `\s` character class (ECMA-262 WhiteSpace ∪ LineTerminator),
also the set trimmed by `String.prototype.trim`. -/
def isJsSpace (c : Char) : Bool :=
  (9 ≤ c.toNat && c.toNat ≤ 13) || c.toNat == 32 || c.toNat == 160 ||
    c.toNat == 5760 || (8192 ≤ c.toNat && c.toNat ≤ 8202) ||
    c.toNat == 8232 || c.toNat == 8233 || c.toNat == 8239 ||
    c.toNat == 8287 || c.toNat == 12288 || c.toNat == 65279

/-- JS truthiness of an optional string (`undefined` and `""` are falsy). -/
def strTruthy (o : Option String) : Bool :=
  match o with
  | some s => !(s == "")
  | none => false

/-- JS `a || b` for an optional string `a` with default `b`
(`undefined` and `""` fall through to the default). -/
def jsOrOpt (o : Option String) (d : String) : String :=
  match o with
  | some s => if s = "" then d else s
  | none => d

/-- JS `a || b` for an optional number `a` (where `undefined` and `0` are
falsy) with default `b`; models `compare.total_commits || commits.length`. -/
def jsOrNat (o : Option Nat) (d : Nat) : Nat :=
  match o with
  | some n => if n = 0 then d else n
  | none => d

/-- `needle` occurs as a contiguous substring of `hay`
(JS `String.prototype.includes`). -/
def containsSub (n : List Char) : List Char → Bool
  | [] => n.isPrefixOf []
  | c :: t => n.isPrefixOf (c :: t) || containsSub n t

/-- Case-insensitive prefix match: if lowering `s` starts with the
(lower-case) keyword `kw`, return the remainder of `s`. -/
def ciPrefix? (kw : List Char) (s : List Char) : Option (List Char) :=
  match kw, s with
  | [], rest => some rest
  | _ :: _, [] => none
  | k :: ks, c :: cs => if Char.toLower c = k then ciPrefix? ks cs else none

/-! ## `cleanTitle` (TitleNormalizer, chat.ts lines 129-138)

```js
function cleanTitle(raw) {
  let t = raw
    .replace(/^(feat|fix|docs?|perf|refactor|chore|ci|build|test|style|breaking)(\([^)]*\))?[:\s!]+/i, "")
    .replace(/\s*\(#\d+\)\s*$/, "")
    .trim();
  return t.charAt(0).toUpperCase() + t.slice(1);
}
```
-/

/-- The character class `[:\s!]` of the leading-prefix pattern. -/
def isSepCh (c : Char) : Bool := c == ':' || isJsSpace c || c == '!'

/-- Keyword alternatives of the leading pattern, in regex alternation /
backtracking order (`docs?` tries the greedy `docs` before `doc`; all other
alternatives are pairwise prefix-free, so flattening preserves JS order). -/
def KEYWORDS : List (List Char) :=
  ["feat".data, "fix".data, "docs".data, "doc".data, "perf".data,
   "refactor".data, "chore".data, "ci".data, "build".data, "test".data,
   "style".data, "breaking".data]

/-- After a matched keyword, consume an optional scope `(\([^)]*\))?`:
a literal `(`, then everything up to the first `)`, then that `)`. -/
def afterScope? (s : List Char) : Option (List Char) :=
  match s with
  | c :: rest =>
    if c = '(' then
      match rest.dropWhile (fun x => !(x == ')')) with
      | d :: r2 => if d = ')' then some r2 else none
      | [] => none
    else none
  | [] => none

/-- Consume the mandatory separator run `[:\s!]+` (greedy, at least one). -/
def sepTail? (s : List Char) : Option (List Char) :=
  match s with
  | c :: _ => if isSepCh c then some (s.dropWhile isSepCh) else none
  | [] => none

/-- Complete a keyword match: try scope-then-separators first (greedy `?`),
backtracking to separators-only, exactly as the JS engine does. -/
def completeMatch? (rest : List Char) : Option (List Char) :=
  match afterScope? rest with
  | some r2 =>
    match sepTail? r2 with
    | some r3 => some r3
    | none => sepTail? rest
  | none => sepTail? rest

/-- Try each keyword alternative in order; on the first full match return
the remainder of the string after the match. -/
def stripLeadAux : List (List Char) → List Char → Option (List Char)
  | [], _ => none
  | kw :: kws, s =>
    match (ciPrefix? kw s).bind completeMatch? with
    | some r => some r
    | none => stripLeadAux kws s

/-- `raw.replace(/^(feat|fix|docs?|...)(\([^)]*\))?[:\s!]+/i, "")`. -/
def stripLead (s : List Char) : List Char :=
  (stripLeadAux KEYWORDS s).getD s

/-- Does this entire list match `\s*\(#\d+\)\s*$` (anchored at both ends)?
The regex match must start at some position and run to the end of the
string, so the matched suffix is exactly: spaces, `(#`, one or more digits,
`)`, spaces. -/
def isTrailMatch (s : List Char) : Bool :=
  match s.dropWhile isJsSpace with
  | '(' :: '#' :: r =>
    !(r.takeWhile Char.isDigit).isEmpty &&
      (match r.dropWhile Char.isDigit with
       | ')' :: r2 => r2.all isJsSpace
       | _ => false)
  | _ => false

/-- `t.replace(/\s*\(#\d+\)\s*$/, "")`: remove the leftmost suffix matching
the pattern (the match is anchored at `$`, so replacing it with `""` drops
that suffix). -/
def stripTrail : List Char → List Char
  | [] => []
  | c :: cs => if isTrailMatch (c :: cs) then [] else c :: stripTrail cs

/-- Left half of `String.prototype.trim`. -/
def ltrim (s : List Char) : List Char := s.dropWhile isJsSpace

/-- Right half of `String.prototype.trim`. -/
def rtrim (s : List Char) : List Char := (s.reverse.dropWhile isJsSpace).reverse

/-- `String.prototype.trim`. -/
def trimL (s : List Char) : List Char := rtrim (ltrim s)

/-- `t.charAt(0).toUpperCase() + t.slice(1)` (ASCII model of
`toUpperCase`, which is exact on the characters the pipeline treats
specially). -/
def capFirst : List Char → List Char
  | [] => []
  | c :: cs => Char.toUpper c :: cs

/-- `cleanTitle` on character lists. -/
def cleanTitleL (s : List Char) : List Char :=
  capFirst (trimL (stripTrail (stripLead s)))

/-- `cleanTitle` from chat.ts: strip one leading conventional-commit token,
strip one trailing `(#N)` back-reference, trim, capitalize first char. -/
def cleanTitle (s : String) : String := ⟨cleanTitleL s.data⟩

/-! ## `categorize` (Categorizer, chat.ts lines 95-127) -/

/-- The six fixed categories. -/
inductive Category where
  | breaking
  | features
  | fixes
  | performance
  | docs
  | other
deriving DecidableEq, Repr

/-- `labels.map(s => s.toLowerCase())` then
`l.some(x => kws.some(k => x.includes(k)))`. -/
def labelIncludes (labels : List String) (kws : List (List Char)) : Bool :=
  labels.any (fun s => kws.any (fun k => containsSub k (s.data.map Char.toLower)))

/-- `^<kw><one char of cls>` case-insensitive title test (`RegExp.test`
with an anchored pattern). -/
def titleMatch (kw : List Char) (cls : Char → Bool) (t : String) : Bool :=
  match ciPrefix? kw t.data with
  | some (c :: _) => cls c
  | _ => false

/-- The class `[\s(:!]` used by the breaking-title pattern. -/
def clsBreaking (c : Char) : Bool := isJsSpace c || c == '(' || c == ':' || c == '!'

/-- The class `[\s(:]` used by the other title patterns. -/
def clsStd (c : Char) : Bool := isJsSpace c || c == '(' || c == ':'

/-- `categorize(title, labels)` from chat.ts: six rules tried in order,
first match wins, defaulting to `other`. -/
def categorize (title : String) (labels : List String) : Category :=
  if labelIncludes labels ["breaking".data] ||
      titleMatch "breaking".data clsBreaking title then
    Category.breaking
  else if labelIncludes labels ["feature".data, "enhancement".data, "feat".data] ||
      titleMatch "feat".data clsStd title then
    Category.features
  else if labelIncludes labels ["bug".data, "fix".data, "hotfix".data] ||
      titleMatch "fix".data clsStd title then
    Category.fixes
  else if labelIncludes labels ["perf".data, "performance".data] ||
      titleMatch "perf".data clsStd title then
    Category.performance
  else if labelIncludes labels ["doc".data, "documentation".data] ||
      (titleMatch "docs".data clsStd title || titleMatch "doc".data clsStd title) then
    Category.docs
  else
    Category.other

/-! ## Data model (chat.ts lines 49-77) -/

/-- One item of the GitHub compare response consumed by the handler
(`c.commit.message` full text, `c.author?.login`, `c.commit.author?.name`). -/
structure RawCommit where
  sha : String
  message : String
  authorLogin : Option String
  authorName : Option String
deriving DecidableEq, Repr

/-- The compare response: its `commits` array and `total_commits` field. -/
structure CompareResp where
  commits : List RawCommit
  total_commits : Option Nat
deriving DecidableEq, Repr

/-- `CommitData` from chat.ts (step 1: message truncated to its first line,
author name defaulted to `"Unknown"`). -/
structure CommitData where
  sha : String
  message : String
  authorLogin : Option String
  authorName : String
deriving DecidableEq, Repr

/-- `PRData` from chat.ts (a resolved, merged pull request). -/
structure PRData where
  number : Nat
  title : String
  author : String
  labels : List String
  body : String
deriving DecidableEq, Repr

/-- `ChangeEntry` from chat.ts. -/
structure ChangeEntry where
  category : Category
  title : String
  prNumber : Option Nat
  author : Option String
deriving DecidableEq, Repr

/-- `(c.commit?.message || "").split("\n")[0]`. -/
def firstLine (s : String) : String := ⟨s.data.takeWhile (fun c => !(c == '\n'))⟩

/-- Step 1 of the handler: compare-response item to `CommitData`. -/
def toCommitData (c : RawCommit) : CommitData :=
  { sha := c.sha
    message := firstLine c.message
    authorLogin := c.authorLogin
    authorName := jsOrOpt c.authorName "Unknown" }

/-! ## PR-number extraction (handler step 2) -/

/-- Scanner state for `/#(\d+)/g`: outside any candidate match, right
after a `#` with no digit seen yet, or inside a digit run with the value
accumulated so far (JS `parseInt(_, 10)`). -/
inductive ScanState where
  | scanning
  | afterHash
  | inNumber (v : Nat)

/-- Left-to-right, non-overlapping scan for `/#(\d+)/g` (`msg.matchAll`):
a `#` followed by a maximal non-empty digit run yields that run's numeric
value; a `#` with no digit after it matches nothing; scanning resumes
right after each digit run. -/
def extractPRNumsGo : ScanState → List Char → List Nat
  | ScanState.inNumber v, [] => [v]
  | _, [] => []
  | ScanState.scanning, c :: rest =>
    if c = '#' then extractPRNumsGo ScanState.afterHash rest
    else extractPRNumsGo ScanState.scanning rest
  | ScanState.afterHash, c :: rest =>
    if c.isDigit then extractPRNumsGo (ScanState.inNumber (c.toNat - 48)) rest
    else if c = '#' then extractPRNumsGo ScanState.afterHash rest
    else extractPRNumsGo ScanState.scanning rest
  | ScanState.inNumber v, c :: rest =>
    if c.isDigit then
      extractPRNumsGo (ScanState.inNumber (10 * v + (c.toNat - 48))) rest
    else if c = '#' then v :: extractPRNumsGo ScanState.afterHash rest
    else v :: extractPRNumsGo ScanState.scanning rest

/-- All matches of `/#(\d+)/g` over a message, in order. -/
def extractPRNums (s : List Char) : List Nat :=
  extractPRNumsGo ScanState.scanning s

/-- `Set` insertion over a number stream: keeps first occurrences in order. -/
def dedupFirst (l : List Nat) : List Nat :=
  l.foldl (fun acc n => if n ∈ acc then acc else acc ++ [n]) []

/-! ## Entry construction (handler step 4, chat.ts lines 217-242) -/

/-- `Set<string>` insertion preserving insertion order. -/
def setAdd (l : List String) (x : String) : List String :=
  if x ∈ l then l else l ++ [x]

/-- `c.message.startsWith("Merge ")`. -/
def isMergeMsg (m : String) : Bool := "Merge ".data.isPrefixOf m.data

/-- The entry pushed for one resolved merged PR. -/
def prEntry (pr : PRData) : ChangeEntry :=
  { category := categorize pr.title pr.labels
    title := cleanTitle pr.title
    prNumber := some pr.number
    author := some pr.author }

/-- The entry pushed for one raw commit (commit-only fallback);
`author: c.authorLogin || c.authorName`. -/
def commitEntry (c : CommitData) : ChangeEntry :=
  { category := categorize c.message []
    title := cleanTitle c.message
    prNumber := none
    author := some (jsOrOpt c.authorLogin c.authorName) }

/-- One iteration of the commit-only fallback loop: skip merge commits,
push the commit entry, and add the author to the contributor set only when
the commit carries a (truthy) GitHub login. -/
def commitFoldStep (acc : List ChangeEntry × List String) (c : CommitData) :
    List ChangeEntry × List String :=
  if isMergeMsg c.message then acc
  else
    (acc.1 ++ [commitEntry c],
     if strTruthy c.authorLogin then setAdd acc.2 (c.authorLogin.getD "")
     else acc.2)

/-- Step 4: `if (prs.length > 0)` use PR records only, else use non-merge
commits; contributors collect PR authors, or commit author logins
(`if (c.authorLogin) contributors.add(c.authorLogin)`). -/
def buildEntries (commits : List CommitData) (prs : List PRData) :
    List ChangeEntry × List String :=
  if prs.length > 0 then
    (prs.map prEntry, prs.foldl (fun acc pr => setAdd acc pr.author) [])
  else
    commits.foldl commitFoldStep ([], [])

/-! ## Classification refinement (handler step 5, chat.ts lines 244-278) -/

/-- `entries.filter(e => e.category === "other").length`. -/
def otherCount (entries : List ChangeEntry) : Nat :=
  (entries.filter (fun e => decide (e.category = Category.other))).length

/-- `otherCount > entries.length * 0.6 && entries.length > 5`. The
IEEE-double product `entries.length * 0.6` compares to the integer
`otherCount` exactly as the rational `6·length/10` does for every list
length below 2^50, so the condition is stated over integers. -/
def refineTrigger (entries : List ChangeEntry) : Bool :=
  decide (10 * otherCount entries > 6 * entries.length) &&
    decide (entries.length > 5)

/-- The titles sent to the classification collaborator. -/
def uncategorizedTitles (entries : List ChangeEntry) : List String :=
  (entries.filter (fun e => decide (e.category = Category.other))).map
    (fun e => e.title)

/-- `new Map(refined.map(r => [r.title, r.category])).get(k)`: later
duplicate keys overwrite earlier ones, so the lookup returns the last
matching pair. -/
def jsMapGet (refined : List (String × Category)) (k : String) :
    Option Category :=
  (refined.reverse.find? (fun r => decide (r.1 = k))).map (fun r => r.2)

/-- The per-entry overwrite:
`if (entry.category === "other" && catMap.has(entry.title)) entry.category = catMap.get(entry.title)`. -/
def refineOne (refined : List (String × Category)) (e : ChangeEntry) :
    ChangeEntry :=
  if e.category = Category.other then
    match jsMapGet refined e.title with
    | some c => { e with category := c }
    | none => e
  else e

/-- Applying a successful classification result to the entry list. -/
def applyRefinement (refined : List (String × Category))
    (entries : List ChangeEntry) : List ChangeEntry :=
  entries.map (refineOne refined)

/-- Step 5 with the LLM call injected as `zai`: when the trigger condition
holds, `adk.zai.extract` is awaited with no surrounding try/catch, so a
failure propagates out of the handler. -/
def refineStep
    (zai : List String → Except String (List (String × Category)))
    (entries : List ChangeEntry) : Except String (List ChangeEntry) :=
  if refineTrigger entries then
    match zai (uncategorizedTitles entries) with
    | Except.error e => Except.error e
    | Except.ok refined => Except.ok (applyRefinement refined entries)
  else Except.ok entries

/-! ## Markdown rendering (handler step 6, chat.ts lines 280-335) -/

/-- One row of the `SECTIONS` table. -/
structure SectionInfo where
  key : Category
  emoji : String
  heading : String
deriving DecidableEq, Repr

/-- The fixed section table of chat.ts, in source order. -/
def SECTIONS : List SectionInfo :=
  [⟨Category.breaking, "⚠️", "Breaking Changes"⟩,
   ⟨Category.features, "✨", "New Features"⟩,
   ⟨Category.fixes, "🐛", "Bug Fixes"⟩,
   ⟨Category.performance, "⚡", "Performance"⟩,
   ⟨Category.docs, "📚", "Documentation"⟩,
   ⟨Category.other, "🔧", "Other Changes"⟩]

/-- `### {emoji} {heading}`. -/
def headerLine (s : SectionInfo) : String :=
  "### " ++ (s.emoji ++ (" " ++ s.heading))

/-- `- {title}{ ([#N](...)) if prNumber truthy}{ by @author if truthy}`. -/
def entryLine (owner repo : String) (e : ChangeEntry) : String :=
  let prPart :=
    match e.prNumber with
    | some n =>
      if n = 0 then ""
      else
        " ([#" ++ toString n ++ "](https://github.com/" ++ owner ++ "/" ++
          repo ++ "/pull/" ++ toString n ++ "))"
    | none => ""
  let byPart :=
    match e.author with
    | some a => if a = "" then "" else " by @" ++ a
    | none => ""
  "- " ++ (e.title ++ (prPart ++ byPart))

/-- The lines a single section contributes: nothing when it has no
entries, else its header, a blank, its entry lines, and a blank.
(The source groups entries into a `Map` keyed by category by pushing in
input order, so the per-section list is exactly the input filtered to that
category, in input order.) -/
def sectionBlock (owner repo : String) (entries : List ChangeEntry)
    (s : SectionInfo) : List String :=
  let items := entries.filter (fun e => decide (e.category = s.key))
  if items.isEmpty then []
  else headerLine s :: "" :: (items.map (entryLine owner repo) ++ [""])

/-- All section lines, iterating `SECTIONS` in its fixed order. -/
def sectionsOut (owner repo : String) (entries : List ChangeEntry) :
    List String :=
  (SECTIONS.map (sectionBlock owner repo entries)).flatten

/-- `_No categorized changes found._` -/
def placeholderLine : String := "_No categorized changes found._"

/-- The section body: the sections, or the placeholder when no section
produced anything (`hasEntries` is false exactly then). -/
def bodyLines (owner repo : String) (entries : List ChangeEntry) :
    List String :=
  sectionsOut owner repo entries ++
    (if (sectionsOut owner repo entries).isEmpty then [placeholderLine, ""]
     else [])

/-- Strict lexicographic order on character lists by code point. -/
def lexLt : List Char → List Char → Bool
  | [], [] => false
  | [], _ :: _ => true
  | _ :: _, [] => false
  | a :: xs, b :: ys => if a = b then lexLt xs ys else decide (a.toNat < b.toNat)

/-- Case-insensitive lexicographic comparison,
`a.toLowerCase().localeCompare(b.toLowerCase()) ≤ 0` restricted to the
code-point order (exact on ASCII handles). -/
def lowerLe (a b : String) : Bool :=
  lexLt (a.data.map Char.toLower) (b.data.map Char.toLower) ||
    decide (a.data.map Char.toLower = b.data.map Char.toLower)

/-- Insertion into a sorted list (stable model of `Array.prototype.sort`
with the case-insensitive comparator). -/
def insertSorted (x : String) : List String → List String
  | [] => [x]
  | y :: ys => if lowerLe x y then x :: y :: ys else y :: insertSorted x ys

/-- The contributor sort of the footer. -/
def sortContribs (l : List String) : List String :=
  l.foldr insertSorted []

/-- The full rendered line list (handler step 6 and footer). -/
def renderLines (owner repo fromRef toRef : String)
    (entries : List ChangeEntry) (contributors : List String)
    (totalCommitsField : Option Nat) (commitsLen prsLen : Nat) :
    List String :=
  let title := if toRef = "HEAD" then "Unreleased" else toRef
  (["# Changelog: " ++ owner ++ "/" ++ repo, "",
    "## " ++ title ++ " (from " ++ fromRef ++ ")", ""] ++
   bodyLines owner repo entries ++
   ["---", "",
    "**Full Changelog**: [" ++ fromRef ++ "..." ++ toRef ++
      "](https://github.com/" ++ owner ++ "/" ++ repo ++ "/compare/" ++
      fromRef ++ "..." ++ toRef ++ ")"] ++
   (if contributors.length > 0 then
     ["**Contributors**: " ++
       ", ".intercalate ((sortContribs contributors).map (fun c => "@" ++ c))]
    else [])) ++
  ["**Stats**: " ++ toString (jsOrNat totalCommitsField commitsLen) ++
    " commits, " ++ toString prsLen ++ " pull requests"]

/-! ## The full pipeline (handler, chat.ts lines 170-336)

The three effectful collaborators are injected as explicit arguments:
`compareRes` is the (already-resolved) result of the top-level
`ghFetch` of the compare endpoint, `prFetch n` the result of the `ghFetch`
of PR `n` (`Except.ok none` models an unmerged PR, which the handler maps
to `null`; `Except.error _` a rejected lookup, which `Promise.allSettled`
drops), and `zai` the classification call. With a deterministic `prFetch`,
the batched concurrent resolution (batches of 15, `allSettled`, fulfilled
non-null results pushed in order) yields exactly the order-preserving
`filterMap` below. No `try`/`catch` appears anywhere in the handler, so a
thrown (`Except.error`) compare fetch or classification call propagates. -/
def generateChangelogM
    (compareRes : Except String CompareResp)
    (prFetch : Nat → Except String (Option PRData))
    (zai : List String → Except String (List (String × Category)))
    (owner repo fromRef toRef : String) : Except String String :=
  match compareRes with
  | Except.error e => Except.error e
  | Except.ok compare =>
    let commits := compare.commits.map toCommitData
    let nums := dedupFirst
      ((compare.commits.map (fun c => extractPRNums c.message.data)).flatten)
    let prs := nums.filterMap (fun n =>
      match prFetch n with
      | Except.ok (some p) => some p
      | _ => none)
    let built := buildEntries commits prs
    match refineStep zai built.1 with
    | Except.error e => Except.error e
    | Except.ok entries2 =>
      Except.ok ("\n".intercalate
        (renderLines owner repo fromRef toRef entries2 built.2
          compare.total_commits commits.length prs.length))

/-! ## Spec-side model of the categorizer (for C5)

An ordered rule table evaluated first-match-wins, as §4.2 of the
specification describes it. -/

/-- The six category rules in the spec's order, each pairing a category
with its match predicate (label-keyword containment, case-insensitive, or
anchored case-insensitive title pattern). -/
def specRules : List (Category × (String → List String → Bool)) :=
  [(Category.breaking, fun t ls =>
      labelIncludes ls ["breaking".data] ||
        titleMatch "breaking".data clsBreaking t),
   (Category.features, fun t ls =>
      labelIncludes ls ["feature".data, "enhancement".data, "feat".data] ||
        titleMatch "feat".data clsStd t),
   (Category.fixes, fun t ls =>
      labelIncludes ls ["bug".data, "fix".data, "hotfix".data] ||
        titleMatch "fix".data clsStd t),
   (Category.performance, fun t ls =>
      labelIncludes ls ["perf".data, "performance".data] ||
        titleMatch "perf".data clsStd t),
   (Category.docs, fun t ls =>
      labelIncludes ls ["doc".data, "documentation".data] ||
        (titleMatch "docs".data clsStd t || titleMatch "doc".data clsStd t))]

/-- Spec-side categorizer: the first rule that matches wins; no rule
matching yields `other`. -/
def specCategorize (t : String) (ls : List String) : Category :=
  match specRules.find? (fun r => r.2 t ls) with
  | some r => r.1
  | none => Category.other

/-! ## Statement-level observers and sample data -/

/-- Observer: does a rendered line start with the section-header marker? -/
def isHeaderB (l : String) : Bool := "### ".data.isPrefixOf l.data

/-- Observer: does a rendered line start with the bullet marker? -/
def startsDash (l : String) : Bool := "- ".data.isPrefixOf l.data

/-- Ten entries, seven of them `other` (70 % > 60 %, total > 5). -/
def entriesTenSevenOther : List ChangeEntry :=
  [⟨Category.other, "T1", none, none⟩, ⟨Category.other, "T2", none, none⟩,
   ⟨Category.other, "T3", none, none⟩, ⟨Category.other, "T4", none, none⟩,
   ⟨Category.other, "T5", none, none⟩, ⟨Category.other, "T6", none, none⟩,
   ⟨Category.other, "T7", none, none⟩, ⟨Category.fixes, "F1", none, none⟩,
   ⟨Category.fixes, "F2", none, none⟩, ⟨Category.fixes, "F3", none, none⟩]

/-- Ten entries, five of them `other` (50 % ≤ 60 %). -/
def entriesTenFiveOther : List ChangeEntry :=
  [⟨Category.other, "T1", none, none⟩, ⟨Category.other, "T2", none, none⟩,
   ⟨Category.other, "T3", none, none⟩, ⟨Category.other, "T4", none, none⟩,
   ⟨Category.other, "T5", none, none⟩, ⟨Category.fixes, "F1", none, none⟩,
   ⟨Category.fixes, "F2", none, none⟩, ⟨Category.fixes, "F3", none, none⟩,
   ⟨Category.fixes, "F4", none, none⟩, ⟨Category.fixes, "F5", none, none⟩]

/-! ## Supporting lemmas: characters and trimming -/

lemma isJsSpace_of_interval {n : Nat} (h1 : 65 ≤ n) (h2 : n ≤ 90) :
    isJsSpace (Char.ofNat n) = false := by
  interval_cases n <;> decide

lemma isJsSpace_false_of_lower {c : Char} (h1 : 97 ≤ c.toNat)
    (h2 : c.toNat ≤ 122) : isJsSpace c = false := by
  simp only [isJsSpace, Bool.or_eq_false_iff, Bool.and_eq_false_iff,
    decide_eq_false_iff_not, beq_eq_false_iff_ne, ne_eq, not_le]
  omega

/-- `toUpperCase` maps whitespace to whitespace and non-whitespace to
non-whitespace. -/
lemma isJsSpace_toUpper (c : Char) : isJsSpace (Char.toUpper c) = isJsSpace c := by
  show isJsSpace (if c.toNat ≥ 97 ∧ c.toNat ≤ 122 then Char.ofNat (c.toNat - 32) else c)
    = isJsSpace c
  split
  · rename_i h
    rw [isJsSpace_of_interval (by omega) (by omega),
      isJsSpace_false_of_lower h.1 h.2]
  · rfl

lemma toUpper_interval {n : Nat} (h1 : 97 ≤ n) (h2 : n ≤ 122) :
    Char.toUpper (Char.ofNat (n - 32)) = Char.ofNat (n - 32) := by
  interval_cases n <;> decide

/-- `c.charAt(0).toUpperCase()` is idempotent. -/
lemma toUpper_toUpper (c : Char) : Char.toUpper (Char.toUpper c) = Char.toUpper c := by
  by_cases h : 97 ≤ c.toNat ∧ c.toNat ≤ 122
  · have h1 : Char.toUpper c = Char.ofNat (c.toNat - 32) := by
      show (if c.toNat ≥ 97 ∧ c.toNat ≤ 122 then Char.ofNat (c.toNat - 32) else c) = _
      simp [h]
    rw [h1, toUpper_interval h.1 h.2]
  · have h1 : Char.toUpper c = c := by
      show (if c.toNat ≥ 97 ∧ c.toNat ≤ 122 then Char.ofNat (c.toNat - 32) else c) = c
      simp [h]
    rw [h1, h1]

lemma capFirst_capFirst (l : List Char) : capFirst (capFirst l) = capFirst l := by
  cases l with
  | nil => rfl
  | cons c cs => simp [capFirst, toUpper_toUpper]

/-- A list whose head is not whitespace is fixed by `ltrim`. -/
lemma ltrim_eq_self_of_head {l : List Char}
    (h : ∀ c, l.head? = some c → isJsSpace c = false) : ltrim l = l := by
  cases l with
  | nil => rfl
  | cons c cs =>
    have := h c rfl
    simp [ltrim, List.dropWhile_cons, this]

lemma head?_ltrim (l : List Char) {c : Char} (h : (ltrim l).head? = some c) :
    isJsSpace c = false := by
  have := List.head?_dropWhile_not isJsSpace l
  simp only [ltrim] at h
  rw [h] at this
  exact this

lemma ltrim_idem (l : List Char) : ltrim (ltrim l) = ltrim l :=
  List.dropWhile_idempotent isJsSpace l

lemma rtrim_idem (l : List Char) : rtrim (rtrim l) = rtrim l := by
  simp [rtrim, List.dropWhile_idempotent]

lemma getLast?_rtrim (l : List Char) {c : Char} (h : (rtrim l).getLast? = some c) :
    isJsSpace c = false := by
  have h2 := List.head?_dropWhile_not isJsSpace l.reverse
  rw [rtrim] at h
  rw [← List.head?_reverse, List.reverse_reverse] at h
  rw [h] at h2
  exact h2

lemma rtrim_prefix (l : List Char) : rtrim l <+: l := by
  have h : List.dropWhile isJsSpace l.reverse <:+ l.reverse :=
    List.dropWhile_suffix isJsSpace
  have h2 := List.reverse_prefix.2 h
  simpa [rtrim] using h2

lemma ltrim_suffix (l : List Char) : ltrim l <:+ l :=
  List.dropWhile_suffix isJsSpace

/-- A non-empty prefix of a list starting with a non-space still has that
non-space head, so `ltrim` fixes it; covers `rtrim` applied after `ltrim`. -/
lemma ltrim_rtrim (l : List Char) : ltrim (rtrim (ltrim l)) = rtrim (ltrim l) := by
  apply ltrim_eq_self_of_head
  intro c hc
  obtain ⟨t, ht⟩ := rtrim_prefix (ltrim l)
  apply head?_ltrim l (c := c)
  cases h : rtrim (ltrim l) with
  | nil => rw [h] at hc; simp at hc
  | cons a as =>
    rw [h] at hc
    simp at hc
    rw [h] at ht
    rw [← ht]
    simp [hc]

/-- `trimL` output is fixed by both one-sided trims. -/
lemma ltrim_trimL (l : List Char) : ltrim (trimL l) = trimL l := ltrim_rtrim l

lemma rtrim_trimL (l : List Char) : rtrim (trimL l) = trimL l := by
  simp [trimL, rtrim_idem]

lemma trimL_trimL (l : List Char) : trimL (trimL l) = trimL l := by
  rw [trimL, ltrim_trimL, rtrim_trimL]

/-- `capFirst` does not change whitespace-ness of the head nor any later
character, so trimming is still trivial after it. -/
lemma ltrim_capFirst (l : List Char) (h : ltrim l = l) :
    ltrim (capFirst l) = capFirst l := by
  cases l with
  | nil => rfl
  | cons c cs =>
    have hc : isJsSpace c = false := by
      by_contra hcT
      simp only [Bool.not_eq_false] at hcT
      simp [ltrim, List.dropWhile_cons, hcT] at h
      have := List.IsSuffix.length_le (h ▸ List.dropWhile_suffix isJsSpace (l := cs))
      simp at this
    apply ltrim_eq_self_of_head
    intro d hd
    simp [capFirst] at hd
    rw [← hd, isJsSpace_toUpper]
    exact hc

lemma getLast?_capFirst (l : List Char) :
    (capFirst l).getLast? = (l.getLast?.map Char.toUpper) ∨
      (capFirst l).getLast? = l.getLast? := by
  cases l with
  | nil => simp [capFirst]
  | cons c cs =>
    cases cs with
    | nil => left; simp [capFirst]
    | cons d ds => right; simp [capFirst]

lemma rtrim_eq_self_of_last {l : List Char}
    (h : ∀ c, l.getLast? = some c → isJsSpace c = false) : rtrim l = l := by
  rw [rtrim, ← List.reverse_reverse l]
  congr 1
  rw [List.reverse_reverse]
  apply ltrim_eq_self_of_head (l := l.reverse)
  intro c hc
  rw [List.head?_reverse] at hc
  exact h c hc

lemma rtrim_capFirst (l : List Char) (h : rtrim l = l) :
    rtrim (capFirst l) = capFirst l := by
  apply rtrim_eq_self_of_last
  intro c hc
  have hLast : ∀ d, l.getLast? = some d → isJsSpace d = false := by
    intro d hd
    by_contra hdT
    simp only [Bool.not_eq_false] at hdT
    have h2 : ltrim l.reverse = l.reverse := by
      rw [rtrim] at h
      conv_rhs at h => rw [← List.reverse_reverse l]
      exact List.reverse_injective h
    rw [← List.head?_reverse] at hd
    have h3 : ∀ c, l.reverse.head? = some c → isJsSpace c = false := by
      intro e he
      rw [← h2] at he
      exact head?_ltrim _ he
    rw [h3 d hd] at hdT
    exact Bool.false_ne_true hdT
  rcases getLast?_capFirst l with hcf | hcf
  · rw [hcf] at hc
    cases hl : l.getLast? with
    | none => rw [hl] at hc; simp at hc
    | some d =>
      rw [hl] at hc
      simp at hc
      rw [← hc, isJsSpace_toUpper]
      exact hLast d hl
  · rw [hcf] at hc
    exact hLast c hc

/-- The normalized title is already trimmed. -/
lemma trimL_cleanTitleL (s : List Char) :
    trimL (cleanTitleL s) = cleanTitleL s := by
  rw [cleanTitleL]
  set u := stripTrail (stripLead s) with hu
  rw [trimL]
  rw [ltrim_capFirst _ (by rw [ltrim_trimL]),
    rtrim_capFirst _ (by rw [rtrim_trimL])]

/-! ## Supporting lemmas: the two regex strippers -/

lemma ciPrefix?_suffix {kw s r : List Char} (h : ciPrefix? kw s = some r) :
    r <:+ s := by
  induction kw generalizing s with
  | nil => simp [ciPrefix?] at h; simp [h]
  | cons k ks ih =>
    cases s with
    | nil => simp [ciPrefix?] at h
    | cons c cs =>
      simp only [ciPrefix?] at h
      split at h
      · exact (ih h).trans (List.suffix_cons c cs)
      · exact absurd h (by simp)

lemma afterScope?_suffix {s r : List Char} (h : afterScope? s = some r) :
    r <:+ s := by
  cases s with
  | nil => simp [afterScope?] at h
  | cons c rest =>
    simp only [afterScope?] at h
    split at h
    · cases hdw : List.dropWhile (fun x => !(x == ')')) rest with
      | nil => rw [hdw] at h; simp at h
      | cons d r2 =>
        rw [hdw] at h
        have h' : (if d = ')' then some r2 else none) = some r := h
        clear h
        rename' h' => h
        by_cases hd : d = ')'
        · rw [if_pos hd] at h
          have h2 : r = r2 := (Option.some.inj h).symm
          subst h2
          have h1 : r <:+ List.dropWhile (fun x => !(x == ')')) rest := by
            rw [hdw]; exact List.suffix_cons _ _
          exact (h1.trans (List.dropWhile_suffix _)).trans (List.suffix_cons _ _)
        · rw [if_neg hd] at h; simp at h
    · simp at h

lemma sepTail?_suffix {s r : List Char} (h : sepTail? s = some r) : r <:+ s := by
  cases s with
  | nil => simp [sepTail?] at h
  | cons c cs =>
    simp only [sepTail?] at h
    split at h
    · obtain rfl : List.dropWhile isSepCh (c :: cs) = r := by simpa using h
      exact List.dropWhile_suffix isSepCh
    · simp at h

lemma completeMatch?_suffix {s r : List Char} (h : completeMatch? s = some r) :
    r <:+ s := by
  unfold completeMatch? at h
  split at h
  · rename_i r2 hsc
    split at h
    · rename_i r3 hsep
      obtain rfl : r3 = r := by simpa using h
      exact (sepTail?_suffix hsep).trans (afterScope?_suffix hsc)
    · exact sepTail?_suffix h
  · exact sepTail?_suffix h

lemma stripLeadAux_suffix {kws : List (List Char)} {s r : List Char}
    (h : stripLeadAux kws s = some r) : r <:+ s := by
  induction kws with
  | nil => simp [stripLeadAux] at h
  | cons kw rest ih =>
    simp only [stripLeadAux] at h
    split at h
    · rename_i r2 hb
      obtain rfl : r2 = r := by simpa using h
      obtain ⟨m, hm1, hm2⟩ := Option.bind_eq_some.1 hb
      exact (completeMatch?_suffix hm2).trans (ciPrefix?_suffix hm1)
    · exact ih h

lemma stripLead_suffix (s : List Char) : stripLead s <:+ s := by
  unfold stripLead
  cases h : stripLeadAux KEYWORDS s with
  | none => simp
  | some r => simpa using stripLeadAux_suffix h

lemma stripTrail_prefix (s : List Char) : stripTrail s <+: s := by
  induction s with
  | nil => simp [stripTrail]
  | cons c cs ih =>
    simp only [stripTrail]
    split
    · exact List.nil_prefix
    · obtain ⟨t, ht⟩ := ih
      exact ⟨t, by rw [List.cons_append, ht]⟩

/-- The normalized title is the first-character capitalization of a
trimmed contiguous substring of the input. -/
lemma cleanTitleL_shape (s : List Char) :
    ∃ t : List Char, t.IsInfix s ∧ cleanTitleL s = capFirst t ∧
      ltrim t = t ∧ rtrim t = t := by
  refine ⟨trimL (stripTrail (stripLead s)), ?_, rfl, ?_, ?_⟩
  · have h1 : trimL (stripTrail (stripLead s)) <:+: stripTrail (stripLead s) := by
      have hA := ltrim_suffix (stripTrail (stripLead s))
      have hB := rtrim_prefix (ltrim (stripTrail (stripLead s)))
      exact hB.isInfix.trans hA.isInfix
    have h2 : stripTrail (stripLead s) <+: stripLead s := stripTrail_prefix _
    have h3 : stripLead s <:+ s := stripLead_suffix s
    exact (h1.trans h2.isInfix).trans h3.isInfix
  · exact ltrim_trimL _
  · exact rtrim_trimL _

/-! ## Claim theorems: the title normalizer (C2, C9) -/

/-- C2 counterexample input: `"fix: fix: x"`. One application strips one
`fix:` prefix and capitalizes, producing `"Fix: x"`; a second application
strips the now-exposed (and now-capitalized) `Fix:` as well, producing
`"X"`. -/
theorem C2_counterexample :
    cleanTitle (cleanTitle "fix: fix: x") ≠ cleanTitle "fix: fix: x" := by
  decide

/-- C2 (amended): the normalizer is idempotent on every title whose
normalized form is a fixed point of the two regex strippers, i.e. does not
itself begin with a conventional-commit token (followed by optional scope
and a separator) and does not end with a `(#N)` back-reference. -/
theorem C2_amended (s : String)
    (h1 : stripLead (cleanTitle s).data = (cleanTitle s).data)
    (h2 : stripTrail (cleanTitle s).data = (cleanTitle s).data) :
    cleanTitle (cleanTitle s) = cleanTitle s := by
  apply String.ext
  show cleanTitleL (cleanTitle s).data = (cleanTitle s).data
  rw [cleanTitleL, h1, h2]
  have h3 : (cleanTitle s).data = cleanTitleL s.data := rfl
  rw [h3, trimL_cleanTitleL, cleanTitleL, capFirst_capFirst]

/-- Witness for C2: a concrete already-normal title. -/
theorem C2_witness :
    stripLead (cleanTitle "hello world").data = (cleanTitle "hello world").data ∧
      stripTrail (cleanTitle "hello world").data = (cleanTitle "hello world").data ∧
      cleanTitle (cleanTitle "hello world") = cleanTitle "hello world" :=
  ⟨by decide, by decide, C2_amended "hello world" (by decide) (by decide)⟩

/-- C9 counterexample: a title consisting only of a conventional-commit
token normalizes to the empty string, which is not non-empty and has no
capitalized first character. -/
theorem C9_counterexample : cleanTitle "fix:" = "" := by decide

/-- C9 (amended): for every raw title, the derived clean title is the
first-character capitalization (`toUpperCase` of the head, rest unmodified)
of a contiguous substring of the raw title that carries no surrounding
whitespace; it may be empty, and a second prefix token or back-reference
present in the raw title may survive. -/
theorem C9_amended (s : String) :
    ∃ t : List Char, t.IsInfix s.data ∧ cleanTitle s = String.mk (capFirst t) ∧
      ltrim t = t ∧ rtrim t = t := by
  obtain ⟨t, hinf, heq, hl, hr⟩ := cleanTitleL_shape s.data
  exact ⟨t, hinf, congrArg String.mk heq, hl, hr⟩

/-! ## Claim theorems: the categorizer (C5) -/

/-- C5: `categorize` evaluates the six rules in the fixed order
breaking, features, fixes, performance, docs, other, first match wins,
case-insensitively; in particular a `"breaking: ..."` title beats an
`"enhancement"` label. -/
theorem C5_categorize_first_match :
    (∀ t ls, categorize t ls = specCategorize t ls) ∧
      categorize "breaking: remove legacy API" ["enhancement"] =
        Category.breaking := by
  constructor
  · intro t ls
    simp only [categorize, specCategorize, specRules, List.find?]
    cases h1 : labelIncludes ls ["breaking".data] ||
        titleMatch "breaking".data clsBreaking t <;>
      cases h2 : labelIncludes ls ["feature".data, "enhancement".data, "feat".data] ||
        titleMatch "feat".data clsStd t <;>
      cases h3 : labelIncludes ls ["bug".data, "fix".data, "hotfix".data] ||
        titleMatch "fix".data clsStd t <;>
      cases h4 : labelIncludes ls ["perf".data, "performance".data] ||
        titleMatch "perf".data clsStd t <;>
      cases h5 : labelIncludes ls ["doc".data, "documentation".data] ||
        (titleMatch "docs".data clsStd t || titleMatch "doc".data clsStd t) <;>
      simp [h1, h2, h3, h4, h5]
  · decide

/-! ## Supporting lemmas: entry construction and refinement -/

/-- Extensional form of the commit-only fold: the entries it accumulates
are exactly the non-merge commits' entries, in order. -/
lemma commitFold_fst (commits : List CommitData)
    (acc : List ChangeEntry × List String) :
    (commits.foldl commitFoldStep acc).1 =
      acc.1 ++ (commits.filter (fun c => !isMergeMsg c.message)).map commitEntry := by
  induction commits generalizing acc with
  | nil => simp
  | cons c cs ih =>
    simp only [List.foldl_cons, List.filter_cons]
    cases h : isMergeMsg c.message with
    | true => simp [commitFoldStep, h, ih]
    | false => simp [commitFoldStep, h, ih]

lemma mem_setAdd {l : List String} {x y : String} (h : x ∈ setAdd l y) :
    x ∈ l ∨ x = y := by
  unfold setAdd at h
  split at h
  · exact Or.inl h
  · rcases List.mem_append.1 h with h1 | h1
    · exact Or.inl h1
    · simp at h1; exact Or.inr h1

/-- Every contributor accumulated by the commit-only fold is either already
in the accumulator or the (truthy) login of a non-merge commit. -/
lemma commitFold_snd_mem (commits : List CommitData)
    (acc : List ChangeEntry × List String) (x : String)
    (h : x ∈ (commits.foldl commitFoldStep acc).2) :
    x ∈ acc.2 ∨ ∃ c, c ∈ commits ∧ isMergeMsg c.message = false ∧
      strTruthy c.authorLogin = true ∧ c.authorLogin.getD "" = x := by
  induction commits generalizing acc with
  | nil => exact Or.inl h
  | cons c cs ih =>
    simp only [List.foldl_cons] at h
    rcases ih (commitFoldStep acc c) h with h1 | h1
    · unfold commitFoldStep at h1
      split at h1
      · exact Or.inl h1
      · rename_i hm
        simp only [Bool.not_eq_true] at hm
        by_cases ht : strTruthy c.authorLogin = true
        · rw [if_pos ht] at h1
          rcases mem_setAdd h1 with h2 | h2
          · exact Or.inl h2
          · exact Or.inr ⟨c, List.mem_cons_self c cs, hm, ht, h2.symm⟩
        · rw [if_neg ht] at h1
          exact Or.inl h1
    · obtain ⟨d, hd, hrest⟩ := h1
      exact Or.inr ⟨d, List.mem_cons_of_mem c hd, hrest⟩

lemma refineOne_nil (e : ChangeEntry) : refineOne [] e = e := by
  unfold refineOne jsMapGet
  split <;> simp

lemma applyRefinement_nil (entries : List ChangeEntry) :
    applyRefinement [] entries = entries := by
  induction entries with
  | nil => rfl
  | cons e es ih =>
    simpa [applyRefinement, refineOne_nil] using ih

/-- A classification collaborator that succeeds with an empty result leaves
the pipeline untouched whether or not it is invoked. -/
lemma refineStep_ok_empty (entries : List ChangeEntry) :
    refineStep (fun _ => Except.ok []) entries = Except.ok entries := by
  unfold refineStep
  split
  · exact congrArg Except.ok (applyRefinement_nil entries)
  · rfl

/-! ## Claim theorems: error propagation of the pipeline (C1, C4) -/

/-- C1 counterexample: a 404 from the top-level compare fetch is not caught
and rendered into the returned markdown; it propagates out of the handler
(the handler body contains no `try`/`catch`). -/
theorem C1_counterexample :
    generateChangelogM
      (Except.error "GitHub 404 - check that the repo and refs exist.")
      (fun _ => Except.ok none) (fun _ => Except.ok [])
      "octo" "repo" "v1.0.0" "v2.0.0" =
      Except.error "GitHub 404 - check that the repo and refs exist." := rfl

/-- C1 (amended): an upstream failure of the initial compare fetch
propagates to the caller as a thrown error (it is not rendered into the
returned string); individual PR-lookup failures are tolerated, and when
the compare call succeeds and the classification collaborator does not
fail, a markdown string is returned. -/
theorem C1_amended :
    (∀ e prFetch zai owner repo fromRef toRef,
        generateChangelogM (Except.error e) prFetch zai owner repo fromRef
          toRef = Except.error e) ∧
      (∀ comp prFetch owner repo fromRef toRef, ∃ out,
        generateChangelogM (Except.ok comp) prFetch (fun _ => Except.ok [])
          owner repo fromRef toRef = Except.ok out) := by
  constructor
  · intro e prFetch zai owner repo fromRef toRef
    rfl
  · intro comp prFetch owner repo fromRef toRef
    simp only [generateChangelogM, refineStep_ok_empty]
    exact ⟨_, rfl⟩

/-- C4 counterexample: ten commit-only entries of which seven stay `other`
trigger the refinement pass; a failing classification call then aborts the
whole generation instead of returning a changelog with the original
rule-based categories. -/
theorem C4_counterexample :
    generateChangelogM
      (Except.ok ⟨[⟨"c1", "update dependencies", some "u1", some "Ann"⟩,
        ⟨"c2", "cleanup code", some "u1", some "Ann"⟩,
        ⟨"c3", "misc tweaks", some "u1", some "Ann"⟩,
        ⟨"c4", "more tweaks", some "u1", some "Ann"⟩,
        ⟨"c5", "adjust config", some "u1", some "Ann"⟩,
        ⟨"c6", "retouch styles", some "u1", some "Ann"⟩,
        ⟨"c7", "polish output", some "u1", some "Ann"⟩,
        ⟨"c8", "fix: bug one", some "u1", some "Ann"⟩,
        ⟨"c9", "fix: bug two", some "u1", some "Ann"⟩,
        ⟨"c10", "fix: bug three", some "u1", some "Ann"⟩], some 10⟩)
      (fun _ => Except.ok none) (fun _ => Except.error "zai timeout")
      "octo" "repo" "v1.0.0" "v2.0.0" = Except.error "zai timeout" := rfl

/-- C4 (amended): when the refinement pass is triggered and the
classification call fails, the error propagates and no changelog is
returned; the original categories survive only when the pass is not
triggered (or the call succeeds). -/
theorem C4_amended :
    ∀ entries e zai,
      (refineTrigger entries = true →
        refineStep (fun _ => Except.error e) entries = Except.error e) ∧
      (refineTrigger entries = false →
        refineStep zai entries = Except.ok entries) := by
  intro entries e zai
  constructor
  · intro h
    unfold refineStep
    rw [if_pos h]
  · intro h
    unfold refineStep
    rw [if_neg (by simp [h])]

/-- Witness for C4 at a concrete triggered input. -/
theorem C4_witness :
    refineTrigger entriesTenSevenOther = true ∧
      refineStep (fun _ => Except.error "boom") entriesTenSevenOther =
        Except.error "boom" :=
  ⟨by decide,
   (C4_amended entriesTenSevenOther "boom" (fun _ => Except.ok [])).1
     (by decide)⟩

/-! ## Claim theorems: entry construction (C3) -/

/-- C3 counterexample: one resolved PR (#1) plus a second raw commit with
no PR reference at all; the claim's "raw commits not covered by any
resolved PR still contribute entries" fails — the entry list collapses to
the single PR record and the standalone commit contributes nothing. -/
theorem C3_counterexample :
    (buildEntries
        [⟨"s1", "fix: a (#1)", some "u1", "U1"⟩,
         ⟨"s2", "feat: standalone", some "u2", "U2"⟩]
        [⟨1, "fix: a", "u1", ["bug"], ""⟩]).1.length = 1 ∧
      ¬ ∃ e ∈ (buildEntries
        [⟨"s1", "fix: a (#1)", some "u1", "U1"⟩,
         ⟨"s2", "feat: standalone", some "u2", "U2"⟩]
        [⟨1, "fix: a", "u1", ["bug"], ""⟩]).1, e.title = "Standalone" := by
  decide

/-- C3 (amended): when at least one PR resolves, the PR records supersede
ALL raw commits — the entry list is exactly the PR entries, and commits
not covered by any resolved PR contribute nothing; the commit-only list
(merge commits excluded) is used exactly when no PRs resolve. -/
theorem C3_amended :
    ∀ commits prs,
      (prs ≠ [] → (buildEntries commits prs).1 = prs.map prEntry) ∧
      (prs = [] → (buildEntries commits prs).1 =
        (commits.filter (fun c => !isMergeMsg c.message)).map commitEntry) := by
  intro commits prs
  constructor
  · intro h
    unfold buildEntries
    rw [if_pos (by simpa [List.length_pos] using h)]
  · intro h
    subst h
    unfold buildEntries
    rw [if_neg (by simp)]
    simpa using commitFold_fst commits ([], [])

/-- Witness for C3 at concrete inputs, covering both hypotheses. -/
theorem C3_witness :
    (([⟨1, "fix: a", "u1", ["bug"], ""⟩] : List PRData) ≠ [] ∧
        (buildEntries [] [⟨1, "fix: a", "u1", ["bug"], ""⟩]).1 =
          ([⟨1, "fix: a", "u1", ["bug"], ""⟩] : List PRData).map prEntry) ∧
      (buildEntries [⟨"s1", "tidy up", some "u1", "U1"⟩] []).1 =
        (([⟨"s1", "tidy up", some "u1", "U1"⟩] : List CommitData).filter
          (fun c => !isMergeMsg c.message)).map commitEntry :=
  ⟨⟨by decide,
    (C3_amended [] [⟨1, "fix: a", "u1", ["bug"], ""⟩]).1 (by decide)⟩,
   (C3_amended [⟨"s1", "tidy up", some "u1", "U1"⟩] []).2 rfl⟩

/-! ## Claim theorems: the refinement trigger and overwrite rules (C8) -/

/-- C8: the refinement pass runs iff `other` entries strictly exceed 60 %
of the total and the total strictly exceeds 5 (so 7 of 10 triggers it and
5 of 10 does not); when it is not triggered the collaborator is never
consulted; when it is, only entries currently `other` whose title matches
a returned classification are overwritten. -/
theorem C8_refinement :
    (∀ entries, refineTrigger entries = true ↔
        (100 * otherCount entries > 60 * entries.length ∧
          5 < entries.length)) ∧
      (∀ entries zai, refineTrigger entries = false →
        refineStep zai entries = Except.ok entries) ∧
      (∀ entries refined, refineTrigger entries = true →
        refineStep (fun _ => Except.ok refined) entries =
          Except.ok (applyRefinement refined entries)) ∧
      (∀ refined e, e.category ≠ Category.other → refineOne refined e = e) ∧
      (∀ refined e, jsMapGet refined e.title = none →
        refineOne refined e = e) ∧
      (∀ refined e c, e.category = Category.other →
        jsMapGet refined e.title = some c →
        refineOne refined e = { e with category := c }) ∧
      refineTrigger entriesTenSevenOther = true ∧
      refineTrigger entriesTenFiveOther = false := by
  refine ⟨?_, ?_, ?_, ?_, ?_, ?_, by decide, by decide⟩
  · intro entries
    simp only [refineTrigger, Bool.and_eq_true, decide_eq_true_eq]
    omega
  · intro entries zai h
    unfold refineStep
    rw [if_neg (by simp [h])]
  · intro entries refined h
    unfold refineStep
    rw [if_pos h]
  · intro refined e h
    unfold refineOne
    rw [if_neg h]
  · intro refined e h
    unfold refineOne
    split
    · rw [h]
    · rfl
  · intro refined e c h1 h2
    unfold refineOne
    rw [if_pos h1, h2]

/-- Witness for C8: with 5 `other` of 10 the pass is not invoked — even a
failing collaborator leaves the result untouched. -/
theorem C8_witness :
    refineTrigger entriesTenFiveOther = false ∧
      refineStep (fun _ => Except.error "boom") entriesTenFiveOther =
        Except.ok entriesTenFiveOther :=
  ⟨by decide,
   C8_refinement.2.1 entriesTenFiveOther (fun _ => Except.error "boom")
     (by decide)⟩

/-! ## Supporting lemmas: rendered line shapes -/

lemma isPrefixOf_head_ne {a b : Char} {t u : List Char} (h : (a == b) = false) :
    (a :: t).isPrefixOf (b :: u) = false := by
  simp only [List.isPrefixOf, h, Bool.false_and]

lemma data_append_string (a b : String) : (a ++ b).data = a.data ++ b.data :=
  String.data_append a b

lemma isHeaderB_append (x : String) : isHeaderB ("### " ++ x) = true := by
  unfold isHeaderB
  rw [data_append_string]
  exact List.isPrefixOf_iff_prefix.2 (List.prefix_append _ _)

lemma isHeaderB_headerLine (s : SectionInfo) : isHeaderB (headerLine s) = true :=
  isHeaderB_append _

lemma isHeaderB_dash (x : String) : isHeaderB ("- " ++ x) = false := by
  unfold isHeaderB
  have h : ("- " ++ x).data = '-' :: (' ' :: x.data) := by
    rw [data_append_string]; rfl
  rw [h]
  have h2 : "### ".data = '#' :: "## ".data := rfl
  rw [h2]
  exact isPrefixOf_head_ne (by decide)

lemma startsDash_dash (x : String) : startsDash ("- " ++ x) = true := by
  unfold startsDash
  rw [data_append_string]
  exact List.isPrefixOf_iff_prefix.2 (List.prefix_append _ _)

lemma isHeaderB_entryLine (o r : String) (e : ChangeEntry) :
    isHeaderB (entryLine o r e) = false := isHeaderB_dash _

lemma startsDash_entryLine (o r : String) (e : ChangeEntry) :
    startsDash (entryLine o r e) = true := startsDash_dash _

/-- The header lines a single section block contributes. -/
lemma filter_isHeaderB_sectionBlock (o r : String) (entries : List ChangeEntry)
    (s : SectionInfo) :
    (sectionBlock o r entries s).filter isHeaderB =
      if (entries.filter (fun e => decide (e.category = s.key))).isEmpty
      then [] else [headerLine s] := by
  unfold sectionBlock
  split
  · rename_i h
    rw [if_pos h]
    rfl
  · rename_i h
    rw [if_neg h]
    rw [List.filter_cons_of_pos (by rw [isHeaderB_headerLine]),
      List.filter_cons_of_neg (by decide),
      List.filter_append,
      List.filter_eq_nil_iff.2 (fun a ha => by
        obtain ⟨e, _, rfl⟩ := List.mem_map.1 ha
        rw [isHeaderB_entryLine]
        exact Bool.false_ne_true),
      List.nil_append,
      show List.filter isHeaderB [""] = [] from by decide]

/-- Header lines of a section-table slice, in table order, one per
non-empty section. -/
lemma filter_isHeaderB_flatten (o r : String) (entries : List ChangeEntry)
    (secs : List SectionInfo) :
    ((secs.map (sectionBlock o r entries)).flatten).filter isHeaderB =
      (secs.filter (fun s =>
        !(entries.filter (fun e => decide (e.category = s.key))).isEmpty)).map
        headerLine := by
  induction secs with
  | nil => rfl
  | cons s ss ih =>
    simp only [List.map_cons, List.flatten_cons, List.filter_append, ih,
      List.filter_cons]
    rw [filter_isHeaderB_sectionBlock]
    cases h : (entries.filter (fun e => decide (e.category = s.key))).isEmpty with
    | true => simp [h]
    | false => simp [h]

/-- Every line of a section block is a blank, a header, or a bullet. -/
lemma mem_sectionBlock_shape {o r : String} {entries : List ChangeEntry}
    {s : SectionInfo} {x : String} (h : x ∈ sectionBlock o r entries s) :
    x = "" ∨ isHeaderB x = true ∨ startsDash x = true := by
  unfold sectionBlock at h
  dsimp only [] at h
  split at h
  · simp at h
  · rcases List.mem_cons.1 h with h1 | h1
    · exact Or.inr (Or.inl (h1 ▸ isHeaderB_headerLine s))
    · rcases List.mem_cons.1 h1 with h2 | h2
      · exact Or.inl h2
      · rcases List.mem_append.1 h2 with h3 | h3
        · obtain ⟨e, _, rfl⟩ := List.mem_map.1 h3
          exact Or.inr (Or.inr (startsDash_entryLine o r e))
        · simp at h3
          exact Or.inl h3

/-- Every entry's category owns a row of the section table. -/
lemma exists_section_of_category (c : Category) :
    ∃ s, s ∈ SECTIONS ∧ s.key = c := by
  cases c
  · exact ⟨⟨Category.breaking, "⚠️", "Breaking Changes"⟩, by decide, rfl⟩
  · exact ⟨⟨Category.features, "✨", "New Features"⟩, by decide, rfl⟩
  · exact ⟨⟨Category.fixes, "🐛", "Bug Fixes"⟩, by decide, rfl⟩
  · exact ⟨⟨Category.performance, "⚡", "Performance"⟩, by decide, rfl⟩
  · exact ⟨⟨Category.docs, "📚", "Documentation"⟩, by decide, rfl⟩
  · exact ⟨⟨Category.other, "🔧", "Other Changes"⟩, by decide, rfl⟩

/-- A non-empty entry list always renders at least one section. -/
lemma sectionsOut_ne_nil {o r : String} {entries : List ChangeEntry}
    (h : entries ≠ []) : sectionsOut o r entries ≠ [] := by
  obtain ⟨e, es, rfl⟩ := List.exists_cons_of_ne_nil h
  obtain ⟨s, hs, hk⟩ := exists_section_of_category e.category
  have hne : (List.filter (fun x => decide (x.category = s.key)) (e :: es)).isEmpty
      = false := by
    rw [List.filter_cons_of_pos (by simp [hk])]
    simp
  have hmem : headerLine s ∈ sectionsOut o r (e :: es) := by
    unfold sectionsOut
    rw [List.mem_flatten]
    refine ⟨sectionBlock o r (e :: es) s, List.mem_map_of_mem _ hs, ?_⟩
    unfold sectionBlock
    rw [if_neg (by rw [hne]; exact Bool.false_ne_true)]
    exact List.mem_cons_self _ _
  exact List.ne_nil_of_mem hmem

/-! ## Claim theorems: section rendering (C7) -/

/-- C7: section headers render only in the fixed table order with empty
sections entirely absent; an empty entry list yields exactly the single
italic placeholder line (plus its blank), and a non-empty one never
renders the placeholder. -/
theorem C7_section_rendering :
    ∀ owner repo entries,
      ((bodyLines owner repo entries).filter isHeaderB =
        (SECTIONS.filter (fun s =>
          !(entries.filter (fun e => decide (e.category = s.key))).isEmpty)).map
          headerLine) ∧
      (entries = [] → bodyLines owner repo entries = [placeholderLine, ""]) ∧
      (entries ≠ [] → placeholderLine ∉ bodyLines owner repo entries) := by
  intro owner repo entries
  refine ⟨?_, ?_, ?_⟩
  · unfold bodyLines
    rw [List.filter_append]
    have h2 : (if (sectionsOut owner repo entries).isEmpty
        then [placeholderLine, ""] else []).filter isHeaderB = [] := by
      split
      · rfl
      · rfl
    rw [h2, List.append_nil]
    exact filter_isHeaderB_flatten owner repo entries SECTIONS
  · intro h
    subst h
    rfl
  · intro h
    have hne := sectionsOut_ne_nil (o := owner) (r := repo) h
    unfold bodyLines
    rw [if_neg (by simpa [List.isEmpty_iff] using hne)]
    rw [List.append_nil]
    intro hmem
    obtain ⟨blk, hblk, hx⟩ := List.mem_flatten.1 hmem
    obtain ⟨s, _, rfl⟩ := List.mem_map.1 hblk
    rcases mem_sectionBlock_shape hx with h1 | h1 | h1
    · exact absurd h1 (by decide)
    · rw [show isHeaderB placeholderLine = false from by decide] at h1
      exact Bool.false_ne_true h1
    · rw [show startsDash placeholderLine = false from by decide] at h1
      exact Bool.false_ne_true h1

/-- Witness for C7 at concrete inputs, covering both hypotheses. -/
theorem C7_witness :
    bodyLines "octo" "repo" [] = [placeholderLine, ""] ∧
      placeholderLine ∉
        bodyLines "octo" "repo" [⟨Category.fixes, "Fix cart", none, none⟩] :=
  ⟨(C7_section_rendering "octo" "repo" []).2.1 rfl,
   (C7_section_rendering "octo" "repo"
     [⟨Category.fixes, "Fix cart", none, none⟩]).2.2 (by decide)⟩

/-! ## Claim theorems: the stats line (C6) -/

/-- C6 counterexample: a commit-derived entry list with zero resolved PRs
still renders a pull-request count (`0 pull requests`) in the stats line,
instead of omitting it. -/
theorem C6_counterexample :
    (renderLines "octo" "repo" "v1.0.0" "v2.0.0"
        [⟨Category.fixes, "Fix cart", none, some "dev1"⟩] ["dev1"]
        (some 3) 3 0).getLast? =
      some "**Stats**: 3 commits, 0 pull requests" := by decide

/-- C6 (amended): the stats line is always the final rendered line and
always states both the commit count (`total_commits`, falling back to the
fetched commit-list length when absent or zero) and the resolved-PR count,
even when that count is zero. -/
theorem C6_amended :
    (∀ owner repo fromRef toRef entries contributors tc cl pl,
        (renderLines owner repo fromRef toRef entries contributors tc cl
          pl).getLast? =
          some ("**Stats**: " ++ toString (jsOrNat tc cl) ++ " commits, " ++
            toString pl ++ " pull requests")) ∧
      (renderLines "o" "r" "a" "b"
          [⟨Category.fixes, "F", some 10, some "dev1"⟩,
           ⟨Category.features, "G", some 11, some "dev2"⟩]
          ["dev1", "dev2"] (some 5) 5 2).getLast? =
        some "**Stats**: 5 commits, 2 pull requests" := by
  constructor
  · intro owner repo fromRef toRef entries contributors tc cl pl
    unfold renderLines
    exact List.getLast?_concat _
  · decide

/-! ## Claim theorems: contributors in the commit-only fallback (C10) -/

lemma jsOrOpt_of_not_truthy {o : Option String} {d : String}
    (h : strTruthy o = false) : jsOrOpt o d = d := by
  cases o with
  | none => rfl
  | some s =>
    simp only [strTruthy, Bool.not_eq_false'] at h
    simp only [jsOrOpt, if_pos (by simpa using h)]

/-- C10: in the commit-only fallback, the contributor set collects only
(truthy) GitHub logins; a commit whose author has no login still produces
an entry — rendered with the author's display name after `by @` — but adds
nothing to the contributor set. -/
theorem C10_commit_contributors :
    ∀ commits : List CommitData,
      (∀ x, x ∈ (buildEntries commits []).2 →
          ∃ c, c ∈ commits ∧ isMergeMsg c.message = false ∧
            strTruthy c.authorLogin = true ∧ c.authorLogin.getD "" = x) ∧
      (∀ owner repo c, c ∈ commits → isMergeMsg c.message = false →
          strTruthy c.authorLogin = false →
          commitEntry c ∈ (buildEntries commits []).1 ∧
          (commitEntry c).author = some c.authorName ∧
          (c.authorName ≠ "" →
            (entryLine owner repo (commitEntry c)).data =
              "- ".data ++ (commitEntry c).title.data ++ " by @".data ++
                c.authorName.data)) := by
  intro commits
  constructor
  · intro x hx
    have h1 : (buildEntries commits []).2 = (commits.foldl commitFoldStep ([], [])).2 := by
      unfold buildEntries
      rw [if_neg (by simp)]
    rw [h1] at hx
    rcases commitFold_snd_mem commits ([], []) x hx with h2 | h2
    · simp at h2
    · exact h2
  · intro owner repo c hc hm ht
    have hentries : (buildEntries commits []).1 =
        (commits.filter (fun c => !isMergeMsg c.message)).map commitEntry := by
      unfold buildEntries
      rw [if_neg (by simp)]
      simpa using commitFold_fst commits ([], [])
    have hauthor : (commitEntry c).author = some c.authorName := by
      unfold commitEntry
      rw [jsOrOpt_of_not_truthy ht]
    refine ⟨?_, hauthor, ?_⟩
    · rw [hentries]
      exact List.mem_map_of_mem _ (List.mem_filter.2 ⟨hc, by rw [hm]; rfl⟩)
    · intro hname
      unfold entryLine
      rw [hauthor]
      have hpr : (commitEntry c).prNumber = none := rfl
      rw [hpr]
      dsimp only []
      rw [if_neg hname]
      simp [data_append_string]

/-- Witness for C10: a single non-merge commit with no login. -/
theorem C10_witness :
    commitEntry ⟨"s1", "tidy layout", none, "Ann"⟩ ∈
        (buildEntries [⟨"s1", "tidy layout", none, "Ann"⟩] []).1 ∧
      (commitEntry ⟨"s1", "tidy layout", none, "Ann"⟩).author = some "Ann" :=
  ⟨(((C10_commit_contributors [⟨"s1", "tidy layout", none, "Ann"⟩]).2
      "octo" "repo" ⟨"s1", "tidy layout", none, "Ann"⟩
      (by decide) (by decide) (by decide))).1,
   (((C10_commit_contributors [⟨"s1", "tidy layout", none, "Ann"⟩]).2
      "octo" "repo" ⟨"s1", "tidy layout", none, "Ann"⟩
      (by decide) (by decide) (by decide))).2.1⟩

end Changelogger
